import Mathlib

/-!
Verification of the face-annotation utility (`main.py`).

The program has three parts:
* `load_known_faces` builds parallel lists of reference encodings and names
  from a directory of images;
* a per-frame matching/labeling step (the body of the loop in
  `process_video`, lines 90-109) that labels each detected face;
* the `process_video` driver, which opens the input video, opens an MJPG
  output writer, and runs the frame loop.

The external collaborators (the face-recognition engine and the video
library) are opaque: they enter the model as function and data parameters
(`compare_faces`, `face_distance`, a detector, a file-system view, a video
view).  Console output and video I/O calls are modelled as explicit event
traces.  Face encodings are an abstract type `Enc`; distances are `ℚ`.
-/

set_option autoImplicit false

namespace Face

/-- Python `int()` applied to a nonneg-or-any rational: truncation toward
zero, as in `int(video_capture.get(...))` (main.py lines 62-64). -/
def pyInt (q : ℚ) : Int :=
  q.num.tdiv (q.den : Int)

/-- Index of the first minimum of a list of rationals, as `numpy.argmin`
returns it (main.py line 99: `face_distances.argmin()`).  On the empty
list (never produced by the program) it returns 0. -/
def argminQ : List ℚ → Nat
  | [] => 0
  | [_] => 0
  | x :: y :: ys =>
    let j := argminQ (y :: ys)
    if x ≤ (y :: ys).getD j 0 then 0 else j + 1

section Matching

variable {Enc : Type}

/-- The per-face labeling step of `process_video` (main.py lines 91-101):
start from `"Unknown"`; if the reference set is non-empty, ask the engine
for the boolean match flags and the distances, take the argmin of the
distances, and use that entry's name exactly when its flag is true.
`compare_faces` and `face_distance` stand for the opaque
`face_recognition` engine. -/
def labelFace (compare_faces : List Enc → Enc → List Bool)
    (face_distance : List Enc → Enc → List ℚ)
    (known_face_encodings : List Enc) (known_face_names : List String)
    (face_encoding : Enc) : String :=
  if known_face_encodings.isEmpty then "Unknown"
  else
    let flags := compare_faces known_face_encodings face_encoding
    let face_distances := face_distance known_face_encodings face_encoding
    let best_match_index := argminQ face_distances
    if flags.getD best_match_index false then
      known_face_names.getD best_match_index "Unknown"
    else "Unknown"

/-- Bounding box `(top, right, bottom, left)` in pixel coordinates. -/
abbrev Box := Int × Int × Int × Int

/-- The loop over detected faces (main.py line 90): pair each detected
face's box with the label computed for its encoding. -/
def annotateFaces (compare_faces : List Enc → Enc → List Bool)
    (face_distance : List Enc → Enc → List ℚ)
    (known_face_encodings : List Enc) (known_face_names : List String)
    (faces : List (Box × Enc)) : List (Box × String) :=
  faces.map fun bf =>
    (bf.1, labelFace compare_faces face_distance known_face_encodings
      known_face_names bf.2)

end Matching

/-- Root of `os.path.splitext filename` (main.py line 35), for a bare
filename (no path separator, as produced by `os.listdir`): split off the
part from the last dot on, unless every character before that last dot is
itself a dot (CPython's `posixpath.splitext` leading-dot rule, under which
`".jpg"` has no extension). -/
def pySplitextRoot (s : String) : String :=
  let cs := s.data
  match cs.reverse.findIdx? (fun c => c == '.') with
  | none => s
  | some k =>
    let dotIndex := cs.length - 1 - k
    if (cs.take dotIndex).any (fun c => c != '.') then
      String.mk (cs.take dotIndex)
    else s

/-- The eligibility test of main.py line 25:
`filename.lower().endswith(('.jpg', '.jpeg', '.png'))`, stated on the
filename's character sequence: lowercase every character, then test the
three suffixes. -/
def hasImageExt (filename : String) : Bool :=
  let l := filename.data.map Char.toLower
  ".jpg".data.isSuffixOf l || ".jpeg".data.isSuffixOf l ||
    ".png".data.isSuffixOf l

/-- Console messages of `load_known_faces`, in emission order. -/
inductive LoadMsg where
  | errNoDir (dir : String)
  | loading (filename : String)
  | warnNoFace (filename : String)
  | errLoading (filename : String)
  | loadedCount (n : Nat)
  deriving DecidableEq, Repr

section Loader

variable {Enc : Type}

/-- The `for filename in os.listdir(...)` loop of `load_known_faces`
(main.py lines 24-39).  `feo filename` is the opaque engine's answer for
that file: `none` models an exception raised inside the `try` block
(caught, logged, skipped), `some l` models
`face_recognition.face_encodings(image) = l`.  Returns the accumulated
`(known_face_encodings, known_face_names)` lists, in iteration order,
together with the log. -/
def processFiles (feo : String → Option (List Enc)) :
    List String → List Enc × List String × List LoadMsg
  | [] => ([], [], [])
  | f :: rest =>
    let r := processFiles feo rest
    if hasImageExt f then
      match feo f with
      | none => (r.1, r.2.1, LoadMsg.loading f :: LoadMsg.errLoading f :: r.2.2)
      | some [] => (r.1, r.2.1, LoadMsg.loading f :: LoadMsg.warnNoFace f :: r.2.2)
      | some (e :: _) =>
          (e :: r.1, pySplitextRoot f :: r.2.1, LoadMsg.loading f :: r.2.2)
    else r

/-- `load_known_faces` (main.py lines 5-42).  The file system is a view:
`dir_exists` is `os.path.exists(known_faces_dir)` and `listdir` is
`os.listdir(known_faces_dir)`.  Returns
`(known_face_encodings, known_face_names, console log)`. -/
def load_known_faces (known_faces_dir : String) (dir_exists : Bool)
    (listdir : List String) (feo : String → Option (List Enc)) :
    List Enc × List String × List LoadMsg :=
  if dir_exists then
    let r := processFiles feo listdir
    (r.1, r.2.1, r.2.2 ++ [LoadMsg.loadedCount r.1.length])
  else ([], [], [LoadMsg.errNoDir known_faces_dir])

/-- Whether the loop body of `load_known_faces` appends an entry for file
`f`: it passes the extension test and the engine finds at least one
face. -/
def isSuccess (feo : String → Option (List Enc)) (f : String) : Bool :=
  hasImageExt f &&
    match feo f with
    | some (_ :: _) => true
    | _ => false

/-- The files of `listdir` for which the loop body appends an entry. -/
def successfulFiles (feo : String → Option (List Enc))
    (listdir : List String) : List String :=
  listdir.filter (isSuccess feo)

end Loader

section Driver

variable {Enc Frame : Type}

/-- The state of the input video as `process_video` observes it:
`path_exists` is `os.path.exists(video_path)`, `opens` is
`video_capture.isOpened()`, `width`/`height`/`fps` are the `double`
values returned by `video_capture.get(...)` (modelled as rationals), and
`frames` is the sequence of frames `read()` yields before returning a
falsy `ret`. -/
structure VideoIn (Frame : Type) where
  path_exists : Bool
  opens : Bool
  width : ℚ
  height : ℚ
  fps : ℚ
  frames : List Frame

/-- Observable actions of `process_video`, in order: console messages and
the calls made to the video library. -/
inductive PEvent (Frame : Type) where
  | errVideoNotExist (p : String)
  | errVideoOpen (p : String)
  | openWriter (filename fourcc : String) (fps : Int) (width height : Int)
  | errWriterOpen (p : String)
  | releaseCapture
  | processingMsg (p : String)
  | writeFrame (f : Frame)
  | progressMsg (n : Nat)
  | finishedMsg (outPath : String)
  | releaseWriter
  | destroyAllWindows
  deriving DecidableEq, Repr

/-- The `while True` loop of `process_video` (main.py lines 77-115), with
`n` the value of `frame_count` before the next `read()`.  Each frame read
increments the counter, is annotated and written, and when the counter
hits a multiple of 30 a progress message is printed. -/
def frameLoop (compare_faces : List Enc → Enc → List Bool)
    (face_distance : List Enc → Enc → List ℚ)
    (detect : Frame → List (Box × Enc))
    (draw : Frame → List (Box × String) → Frame)
    (known_face_encodings : List Enc) (known_face_names : List String) :
    List Frame → Nat → List (PEvent Frame)
  | [], _ => []
  | f :: fs, n =>
    let count := n + 1
    let annotated := draw f (annotateFaces compare_faces face_distance
      known_face_encodings known_face_names (detect f))
    (PEvent.writeFrame annotated ::
        if count % 30 = 0 then [PEvent.progressMsg count] else []) ++
      frameLoop compare_faces face_distance detect draw
        known_face_encodings known_face_names fs count

/-- `process_video` (main.py lines 44-120) as the trace of its observable
actions.  `out_opens` is `out.isOpened()` for the writer opened on
`'output.avi'` with fourcc `MJPG` and the `int()`-truncated fps, width
and height of the input (lines 62-68); `detect` stands for
`face_locations` + `face_encodings` on the channel-reversed frame, and
`draw` for the `cv2` drawing calls burning boxes and labels into the
frame. -/
def process_video (video_path : String)
    (known_face_encodings : List Enc) (known_face_names : List String)
    (v : VideoIn Frame) (out_opens : Bool)
    (compare_faces : List Enc → Enc → List Bool)
    (face_distance : List Enc → Enc → List ℚ)
    (detect : Frame → List (Box × Enc))
    (draw : Frame → List (Box × String) → Frame) : List (PEvent Frame) :=
  if v.path_exists = false then [PEvent.errVideoNotExist video_path]
  else if v.opens = false then [PEvent.errVideoOpen video_path]
  else
    let frame_width := pyInt v.width
    let frame_height := pyInt v.height
    let fps := pyInt v.fps
    let output_video_path := "output.avi"
    let openEv : PEvent Frame :=
      PEvent.openWriter output_video_path "MJPG" fps frame_width frame_height
    if out_opens = false then
      [openEv, PEvent.errWriterOpen output_video_path, PEvent.releaseCapture]
    else
      openEv :: PEvent.processingMsg video_path ::
        (frameLoop compare_faces face_distance detect draw
            known_face_encodings known_face_names v.frames 0 ++
          [PEvent.finishedMsg output_video_path, PEvent.releaseCapture,
            PEvent.releaseWriter, PEvent.destroyAllWindows])

/-- Recognizer for frame-write events, used to count written frames. -/
def isWriteFrame : PEvent Frame → Bool
  | PEvent.writeFrame _ => true
  | _ => false

end Driver

/-! Concrete engine and video instances, used to evaluate the theorems on
closed inputs.  Encodings are modelled as rationals with the distance
`|x - e|` and the library's 0.6 tolerance; constant engines model
arbitrary oracle answers. -/

/-- Engine whose match flags are a fixed list, independent of the probe. -/
def cfConst (flags : List Bool) : List ℚ → ℚ → List Bool := fun _ _ => flags

/-- Engine whose distance vector is a fixed list, independent of the probe. -/
def fdConst (ds : List ℚ) : List ℚ → ℚ → List ℚ := fun _ _ => ds

/-- Detector finding no faces in any frame. -/
def detNone : Unit → List (Box × ℚ) := fun _ => []

/-- Drawing that leaves the (unit) frame unchanged. -/
def drawId : Unit → List (Box × String) → Unit := fun f _ => f

/-- A video that exists and opens, reporting 640x480 at 29.97 fps, with
no frames. -/
def cexVideo : VideoIn Unit :=
  { path_exists := true, opens := true, width := 640, height := 480,
    fps := mkRat 2997 100, frames := [] }

/-- A video that exists and opens, with 35 frames. -/
def vid35 : VideoIn Unit :=
  { path_exists := true, opens := true, width := 640, height := 480,
    fps := 30, frames := List.replicate 35 () }

/-- A directory view for evaluating the loader: one good image, one
image the engine fails on, one image with no face, one non-image. -/
def feoW : String → Option (List ℚ) := fun f =>
  if f = "bad.jpg" then none
  else if f = "empty.png" then some []
  else some [5, 6]

/-- A concrete bounding box. -/
def box0 : Box := (0, 0, 0, 0)

/-- The output-sink property claimed by the spec, stated from the spec's
words (for comparison with the code): every writer opened in the trace
carries the fixed filename, the MJPG fourcc, and a frame rate, width and
height each exactly equal to the input's reported value. -/
def writerMatchesInput {Frame : Type} (v : VideoIn Frame)
    (tr : List (PEvent Frame)) : Prop :=
  ∀ fn cc fps w h, PEvent.openWriter fn cc fps w h ∈ tr →
    fn = "output.avi" ∧ cc = "MJPG" ∧ (fps : ℚ) = v.fps ∧
      (w : ℚ) = v.width ∧ (h : ℚ) = v.height

/-! General lemmas about the model. -/

theorem tdiv_one_eq (n : ℤ) : n.tdiv 1 = n := by
  cases n with
  | ofNat m => simp [Int.tdiv]
  | negSucc m =>
    simp only [Int.tdiv, Nat.div_one, Int.negSucc_eq, Int.ofNat_eq_coe]
    push_cast
    ring

theorem pyInt_intCast (n : ℤ) : pyInt (n : ℚ) = n := by
  simp [pyInt, tdiv_one_eq]

theorem argminQ_lt_length : ∀ (l : List ℚ), l ≠ [] → argminQ l < l.length := by
  intro l
  induction l with
  | nil => intro h; exact absurd rfl h
  | cons x xs ih =>
    intro _
    cases xs with
    | nil => simp [argminQ]
    | cons y ys =>
      simp only [argminQ]
      split
      · simp
      · have := ih (by simp)
        simpa [Nat.succ_lt_succ_iff] using this

theorem argminQ_le : ∀ (l : List ℚ) (j : Nat), j < l.length →
    l.getD (argminQ l) 0 ≤ l.getD j 0 := by
  intro l
  induction l with
  | nil => intro j hj; simp at hj
  | cons x xs ih =>
    intro j hj
    cases xs with
    | nil =>
      cases j with
      | zero => simp [argminQ]
      | succ j => simp at hj
    | cons y ys =>
      by_cases hle : x ≤ (y :: ys).getD (argminQ (y :: ys)) 0
      · simp only [argminQ, if_pos hle, List.getD_cons_zero]
        cases j with
        | zero => simp
        | succ j =>
          simp only [List.getD_cons_succ]
          exact le_trans hle (ih j (by simpa using hj))
      · simp only [argminQ, if_neg hle, List.getD_cons_succ]
        cases j with
        | zero =>
          simp only [List.getD_cons_zero]
          exact le_of_lt (lt_of_not_le hle)
        | succ j =>
          simp only [List.getD_cons_succ]
          exact ih j (by simpa using hj)

theorem argminQ_first : ∀ (l : List ℚ) (j : Nat), j < argminQ l →
    l.getD (argminQ l) 0 < l.getD j 0 := by
  intro l
  induction l with
  | nil => intro j hj; simp [argminQ] at hj
  | cons x xs ih =>
    intro j hj
    cases xs with
    | nil => simp [argminQ] at hj
    | cons y ys =>
      by_cases hle : x ≤ (y :: ys).getD (argminQ (y :: ys)) 0
      · simp only [argminQ, if_pos hle] at hj
        omega
      · simp only [argminQ, if_neg hle] at hj ⊢
        simp only [List.getD_cons_succ]
        cases j with
        | zero =>
          simp only [List.getD_cons_zero]
          exact lt_of_not_le hle
        | succ j =>
          simp only [List.getD_cons_succ]
          exact ih j (by omega)

section LoaderLemmas

variable {Enc : Type} (feo : String → Option (List Enc))

theorem processFiles_names_eq : ∀ l : List String,
    (processFiles feo l).2.1 = (successfulFiles feo l).map pySplitextRoot := by
  intro l
  induction l with
  | nil => rfl
  | cons f rest ih =>
    by_cases hext : hasImageExt f
    · cases hfeo : feo f with
      | none =>
        simp [processFiles, successfulFiles, List.filter_cons, isSuccess,
          hext, hfeo] at *
        exact ih
      | some es =>
        cases es with
        | nil =>
          simp [processFiles, successfulFiles, List.filter_cons, isSuccess,
            hext, hfeo] at *
          exact ih
        | cons e es =>
          simp [processFiles, successfulFiles, List.filter_cons, isSuccess,
            hext, hfeo] at *
          exact ih
    · simp [processFiles, successfulFiles, List.filter_cons, isSuccess,
        hext] at *
      exact ih

theorem processFiles_encs_length : ∀ l : List String,
    (processFiles feo l).1.length = (successfulFiles feo l).length := by
  intro l
  induction l with
  | nil => rfl
  | cons f rest ih =>
    by_cases hext : hasImageExt f
    · cases hfeo : feo f with
      | none =>
        simpa [processFiles, successfulFiles, List.filter_cons, isSuccess,
          hext, hfeo] using ih
      | some es =>
        cases es with
        | nil =>
          simpa [processFiles, successfulFiles, List.filter_cons, isSuccess,
            hext, hfeo] using ih
        | cons e es =>
          simpa [processFiles, successfulFiles, List.filter_cons, isSuccess,
            hext, hfeo] using ih
    · simpa [processFiles, successfulFiles, List.filter_cons, isSuccess,
        hext] using ih

theorem processFiles_warn : ∀ (l : List String) (f : String), f ∈ l →
    hasImageExt f = true → feo f = some [] →
    LoadMsg.warnNoFace f ∈ (processFiles feo l).2.2 := by
  intro l
  induction l with
  | nil => intro f hf; simp at hf
  | cons g rest ih =>
    intro f hf hext hfeo
    rcases List.mem_cons.mp hf with hfg | hfr
    · subst hfg
      simp [processFiles, hext, hfeo]
    · have hmem := ih f hfr hext hfeo
      by_cases hg : hasImageExt g
      · cases hgeo : feo g with
        | none => simp [processFiles, hg, hgeo, hmem]
        | some es =>
          cases es with
          | nil => simp [processFiles, hg, hgeo, hmem]
          | cons e es => simp [processFiles, hg, hgeo, hmem]
      · simpa [processFiles, hg] using hmem

theorem processFiles_append : ∀ l₁ l₂ : List String,
    (processFiles feo (l₁ ++ l₂)).1 =
        (processFiles feo l₁).1 ++ (processFiles feo l₂).1 ∧
      (processFiles feo (l₁ ++ l₂)).2.1 =
        (processFiles feo l₁).2.1 ++ (processFiles feo l₂).2.1 := by
  intro l₁ l₂
  induction l₁ with
  | nil => simp [processFiles]
  | cons f rest ih =>
    by_cases hext : hasImageExt f
    · cases hfeo : feo f with
      | none => simpa [processFiles, hext, hfeo] using ih
      | some es =>
        cases es with
        | nil => simpa [processFiles, hext, hfeo] using ih
        | cons e es => simpa [processFiles, hext, hfeo] using ih
    · simpa [processFiles, hext] using ih

theorem processFiles_parallel_sub : ∀ l L : List String,
    (∀ f, f ∈ l → f ∈ L) →
    List.Forall₂
      (fun (e : Enc) (n : String) => ∃ f ∈ L, hasImageExt f = true ∧
        ∃ tl, feo f = some (e :: tl) ∧ n = pySplitextRoot f)
      (processFiles feo l).1 (processFiles feo l).2.1 := by
  intro l
  induction l with
  | nil => intro L hsub; exact List.Forall₂.nil
  | cons g rest ih =>
    intro L hsub
    have ih' := ih L (fun f hf => hsub f (List.mem_cons_of_mem g hf))
    by_cases hg : hasImageExt g
    · cases hgeo : feo g with
      | none => simpa [processFiles, hg, hgeo] using ih'
      | some es =>
        cases es with
        | nil => simpa [processFiles, hg, hgeo] using ih'
        | cons e es =>
          simp only [processFiles, hg, hgeo]
          exact List.Forall₂.cons
            ⟨g, hsub g (List.mem_cons_self g rest), hg, es, hgeo, rfl⟩ ih'
    · simpa [processFiles, hg] using ih'

theorem processFiles_parallel (l : List String) :
    List.Forall₂
      (fun (e : Enc) (n : String) => ∃ f ∈ l, hasImageExt f = true ∧
        ∃ tl, feo f = some (e :: tl) ∧ n = pySplitextRoot f)
      (processFiles feo l).1 (processFiles feo l).2.1 :=
  processFiles_parallel_sub feo l l (fun _ hf => hf)

end LoaderLemmas

section DriverLemmas

variable {Enc Frame : Type}
variable (cf : List Enc → Enc → List Bool) (fd : List Enc → Enc → List ℚ)
variable (det : Frame → List (Box × Enc)) (dr : Frame → List (Box × String) → Frame)
variable (encs : List Enc) (names : List String)

theorem frameLoop_progress_mem : ∀ (fs : List Frame) (n k : Nat),
    PEvent.progressMsg k ∈ frameLoop cf fd det dr encs names fs n ↔
      (n < k ∧ k ≤ n + fs.length ∧ k % 30 = 0) := by
  intro fs
  induction fs with
  | nil =>
    intro n k
    simp only [frameLoop, List.not_mem_nil, false_iff, List.length_nil]
    omega
  | cons f fs ih =>
    intro n k
    by_cases h30 : (n + 1) % 30 = 0
    · simp [frameLoop, h30, ih (n + 1) k, List.mem_cons, List.mem_append]
      omega
    · simp [frameLoop, h30, ih (n + 1) k, List.mem_cons, List.mem_append]
      omega

theorem frameLoop_writeCount : ∀ (fs : List Frame) (n : Nat),
    (frameLoop cf fd det dr encs names fs n).countP isWriteFrame =
      fs.length := by
  intro fs
  induction fs with
  | nil => intro n; rfl
  | cons f fs ih =>
    intro n
    by_cases h30 : (n + 1) % 30 = 0
    · simp [frameLoop, h30, List.countP_append, List.countP_cons,
        isWriteFrame, ih (n + 1)]
    · simp [frameLoop, h30, List.countP_append, List.countP_cons,
        isWriteFrame, ih (n + 1)]

end DriverLemmas

theorem load_true_encs {Enc : Type} (dir : String) (l : List String)
    (feo : String → Option (List Enc)) :
    (load_known_faces dir true l feo).1 = (processFiles feo l).1 := rfl

theorem load_true_names {Enc : Type} (dir : String) (l : List String)
    (feo : String → Option (List Enc)) :
    (load_known_faces dir true l feo).2.1 = (processFiles feo l).2.1 := rfl

/-! The claims. -/

/-- Claim C1: with a non-empty reference set, the code selects the entry
at the argmin of the distance vector — the index attaining the minimum,
ties broken by the first-occurring minimum — and labels the face with that
entry's name exactly when that specific entry's boolean match flag is
true, otherwise "Unknown", regardless of the flags of all other
entries. -/
theorem C1_argmin_then_flag {Enc : Type}
    (cf : List Enc → Enc → List Bool) (fd : List Enc → Enc → List ℚ)
    (encs : List Enc) (names : List String) (e : Enc)
    (hne : encs ≠ []) :
    (∀ j, j < (fd encs e).length →
      (fd encs e).getD (argminQ (fd encs e)) 0 ≤ (fd encs e).getD j 0) ∧
    (∀ j, j < argminQ (fd encs e) →
      (fd encs e).getD (argminQ (fd encs e)) 0 < (fd encs e).getD j 0) ∧
    labelFace cf fd encs names e =
      (if (cf encs e).getD (argminQ (fd encs e)) false
       then names.getD (argminQ (fd encs e)) "Unknown" else "Unknown") := by
  refine ⟨fun j hj => argminQ_le _ j hj, fun j hj => argminQ_first _ j hj, ?_⟩
  have hemp : encs.isEmpty = false := by
    cases encs with
    | nil => exact absurd rfl hne
    | cons a as => rfl
  simp only [labelFace, hemp, Bool.false_eq_true, if_false]

/-- Witness for C1: the nearest entry (index 0, distance 1) fails its
match flag while the farther entry (index 1, distance 9) passes; the
label is nevertheless "Unknown". -/
theorem C1_witness :
    ([(0 : ℚ), 1] ≠ []) ∧
    labelFace (cfConst [false, true]) (fdConst [1, 9])
      [(0 : ℚ), 1] ["A", "B"] 0 = "Unknown" := by
  refine ⟨by decide, ?_⟩
  have h := C1_argmin_then_flag (cfConst [false, true])
    (fdConst [1, 9]) [(0 : ℚ), 1] ["A", "B"] 0 (by decide)
  rw [h.2.2]
  decide

/-- Claim C5: on a nonexistent directory path, the loader reports the
condition and returns empty encoding and name lists; it is a total
function, so no error escapes to the caller. -/
theorem C5_missing_dir {Enc : Type} (dir : String) (listdir : List String)
    (feo : String → Option (List Enc)) :
    load_known_faces dir false listdir feo =
      ([], [], [LoadMsg.errNoDir dir]) := by
  simp [load_known_faces]

/-- Claim C6: with an empty reference set, every detected face in the
frame is labeled "Unknown", and the annotation is independent of the
distance and match engines — no comparison against reference entries
influences the result. -/
theorem C6_empty_refset {Enc : Type}
    (cf cf₂ : List Enc → Enc → List Bool)
    (fd fd₂ : List Enc → Enc → List ℚ)
    (names : List String) (faces : List (Box × Enc)) :
    (annotateFaces cf fd ([] : List Enc) names faces).all
        (fun p => p.2 == "Unknown") = true ∧
    annotateFaces cf fd ([] : List Enc) names faces =
      annotateFaces cf₂ fd₂ ([] : List Enc) names faces := by
  constructor
  · induction faces with
    | nil => rfl
    | cons p ps ih => simpa [annotateFaces, labelFace] using ih
  · rfl

/-- Claim C9: the encoding and name lists returned by the loader are
parallel: equal length, and the pair at each index consists of the first
encoding the engine found in some listed file together with that same
file's extension-stripped name. -/
theorem C9_parallel_lists {Enc : Type} (dir : String) (dir_exists : Bool)
    (listdir : List String) (feo : String → Option (List Enc)) :
    (load_known_faces dir dir_exists listdir feo).1.length =
      (load_known_faces dir dir_exists listdir feo).2.1.length ∧
    List.Forall₂
      (fun (e : Enc) (n : String) => ∃ f ∈ listdir, hasImageExt f = true ∧
        ∃ tl, feo f = some (e :: tl) ∧ n = pySplitextRoot f)
      (load_known_faces dir dir_exists listdir feo).1
      (load_known_faces dir dir_exists listdir feo).2.1 := by
  cases dir_exists with
  | false => exact ⟨rfl, List.Forall₂.nil⟩
  | true =>
    have h := processFiles_parallel feo listdir
    exact ⟨h.length_eq, h⟩

/-- Claim C10: every label attached to a detected face is either
"Unknown" or one of the reference names, under the engine's contract that
the distance vector has one entry per reference encoding and the loader's
invariant that names and encodings have equal length. -/
theorem C10_labels_closed {Enc : Type}
    (cf : List Enc → Enc → List Bool) (fd : List Enc → Enc → List ℚ)
    (encs : List Enc) (names : List String) (faces : List (Box × Enc))
    (hn : names.length = encs.length)
    (hfd : ∀ e, (fd encs e).length = encs.length) :
    ∀ p ∈ annotateFaces cf fd encs names faces,
      p.2 = "Unknown" ∨ p.2 ∈ names := by
  intro p hp
  simp only [annotateFaces, List.mem_map] at hp
  obtain ⟨bf, hbf, rfl⟩ := hp
  cases hemp : encs.isEmpty with
  | true =>
    left
    simp [labelFace, hemp]
  | false =>
    have hne : encs ≠ [] := by
      cases encs with
      | nil => simp at hemp
      | cons a as => simp
    have hdn : fd encs bf.2 ≠ [] := by
      intro h0
      have hl := hfd bf.2
      rw [h0] at hl
      cases encs with
      | nil => exact hne rfl
      | cons a as => simp at hl
    have hlt : argminQ (fd encs bf.2) < names.length := by
      have h1 := argminQ_lt_length (fd encs bf.2) hdn
      rw [hfd bf.2] at h1
      omega
    simp only [labelFace, hemp, Bool.false_eq_true, if_false]
    by_cases hflag :
        (cf encs bf.2).getD (argminQ (fd encs bf.2)) false = true
    · right
      rw [if_pos hflag, List.getD_eq_getElem _ _ hlt]
      exact List.getElem_mem _
    · left
      rw [if_neg hflag]

/-- Witness for C10: with references `[5, 7]` named `["A", "B"]`, an
engine reporting distances `[1, 0]` and both flags true, the drawn label
"B" is one of the reference names. -/
theorem C10_witness :
    (["A", "B"].length = [(5 : ℚ), 7].length) ∧
    ((box0, "B").2 = "Unknown" ∨ (box0, "B").2 ∈ ["A", "B"]) := by
  refine ⟨by decide, ?_⟩
  exact C10_labels_closed (cfConst [true, true]) (fdConst [1, 0])
    [(5 : ℚ), 7] ["A", "B"] [(box0, 0)] (by decide) (fun e => rfl)
    (box0, "B") (by decide)

/-- Claim C3: for an eligible image file in which the engine finds one or
more faces, the loader adds exactly one entry at that file's position in
iteration order: the first detected face's encoding, paired with the
extension-stripped filename. -/
theorem C3_first_face_entry {Enc : Type} (dir : String)
    (feo : String → Option (List Enc)) (l₁ l₂ : List String) (f : String)
    (e : Enc) (tl : List Enc)
    (hext : hasImageExt f = true) (hfeo : feo f = some (e :: tl)) :
    (load_known_faces dir true (l₁ ++ f :: l₂) feo).1 =
      (processFiles feo l₁).1 ++ e :: (processFiles feo l₂).1 ∧
    (load_known_faces dir true (l₁ ++ f :: l₂) feo).2.1 =
      (processFiles feo l₁).2.1 ++
        pySplitextRoot f :: (processFiles feo l₂).2.1 := by
  have happ := processFiles_append feo l₁ (f :: l₂)
  constructor
  · rw [load_true_encs, happ.1]
    simp [processFiles, hext, hfeo]
  · rw [load_true_names, happ.2]
    simp [processFiles, hext, hfeo]

/-- Witness for C3: in a directory listing with a failing image before
and a non-image after, the file "Jane_Doe.png" with faces `[5, 6]`
contributes exactly the encoding 5 under the name "Jane_Doe". -/
theorem C3_witness :
    hasImageExt "Jane_Doe.png" = true ∧
    feoW "Jane_Doe.png" = some [5, 6] ∧
    (load_known_faces "known_faces" true
        (["bad.jpg"] ++ "Jane_Doe.png" :: ["doc.txt"]) feoW).2.1 =
      (processFiles feoW ["bad.jpg"]).2.1 ++
        pySplitextRoot "Jane_Doe.png" :: (processFiles feoW ["doc.txt"]).2.1 :=
  ⟨by decide, by decide,
    (C3_first_face_entry "known_faces" feoW ["bad.jpg"] ["doc.txt"]
      "Jane_Doe.png" 5 [6] (by decide) (by decide)).2⟩

/-- Claim C4: the loader's name list is exactly the extension-stripped
names of the eligible files with at least one detected face (so no entry
comes from a skipped file), the encoding list's size equals the number of
such files, and a warning naming the file is logged for every eligible
zero-face image. -/
theorem C4_skips_and_warnings {Enc : Type} (dir : String)
    (listdir : List String) (feo : String → Option (List Enc)) :
    (load_known_faces dir true listdir feo).2.1 =
      (successfulFiles feo listdir).map pySplitextRoot ∧
    (load_known_faces dir true listdir feo).1.length =
      (successfulFiles feo listdir).length ∧
    ∀ f ∈ listdir, hasImageExt f = true → feo f = some [] →
      LoadMsg.warnNoFace f ∈ (load_known_faces dir true listdir feo).2.2 := by
  refine ⟨processFiles_names_eq feo listdir,
    processFiles_encs_length feo listdir, ?_⟩
  intro f hf hext hfeo
  have hmem := processFiles_warn feo listdir f hf hext hfeo
  show LoadMsg.warnNoFace f ∈
    (processFiles feo listdir).2.2 ++ [LoadMsg.loadedCount _]
  exact List.mem_append_left _ hmem

/-- Witness for C4: the zero-face image "empty.png" produces a warning
naming it in the loader's log. -/
theorem C4_witness :
    hasImageExt "empty.png" = true ∧
    feoW "empty.png" = some [] ∧
    LoadMsg.warnNoFace "empty.png" ∈
      (load_known_faces "known_faces" true
        ["x.jpg", "bad.jpg", "empty.png", "doc.txt"] feoW).2.2 :=
  ⟨by decide, by decide,
    (C4_skips_and_warnings "known_faces"
        ["x.jpg", "bad.jpg", "empty.png", "doc.txt"] feoW).2.2
      "empty.png" (by decide) (by decide) (by decide)⟩

/-- Claim C2 as stated is false on the code: the reported frame rate is
passed through Python int(), which truncates; a 29.97 fps input yields a
writer opened at 29 fps, not an exactly matching rate. -/
theorem C2_counterexample :
    ¬ writerMatchesInput cexVideo
        (process_video "input_video.mp4" [(0 : ℚ)] ["A"] cexVideo true
          (cfConst []) (fdConst []) detNone drawId) := by
  intro h
  have hm : PEvent.openWriter "output.avi" "MJPG" 29 640 480 ∈
      process_video "input_video.mp4" [(0 : ℚ)] ["A"] cexVideo true
        (cfConst []) (fdConst []) detNone drawId := by decide
  have hfps := (h "output.avi" "MJPG" 29 640 480 hm).2.2.1
  have : (((29 : Int) : ℚ) = mkRat 2997 100) = False := by decide
  rw [show cexVideo.fps = mkRat 2997 100 from rfl] at hfps
  exact this ▸ hfps

/-- Claim C2 (amended): for every input video that exists and opens, the
first action is opening the writer on the fixed filename "output.avi"
with the MJPG fourcc and the input's reported width, height and frame
rate each truncated to an integer by Python int(); these equal the input
exactly whenever the reported values are whole numbers. -/
theorem C2_truncated_writer {Enc Frame : Type} (vp : String)
    (encs : List Enc) (names : List String) (v : VideoIn Frame)
    (oo : Bool) (cf : List Enc → Enc → List Bool)
    (fd : List Enc → Enc → List ℚ) (det : Frame → List (Box × Enc))
    (dr : Frame → List (Box × String) → Frame)
    (h1 : v.path_exists = true) (h2 : v.opens = true) :
    (process_video vp encs names v oo cf fd det dr).head? =
      some (PEvent.openWriter "output.avi" "MJPG" (pyInt v.fps)
        (pyInt v.width) (pyInt v.height)) ∧
    (∀ n : ℤ, v.fps = (n : ℚ) → pyInt v.fps = n) ∧
    (∀ n : ℤ, v.width = (n : ℚ) → pyInt v.width = n) ∧
    (∀ n : ℤ, v.height = (n : ℚ) → pyInt v.height = n) := by
  refine ⟨?_, fun n hn => by rw [hn, pyInt_intCast],
    fun n hn => by rw [hn, pyInt_intCast],
    fun n hn => by rw [hn, pyInt_intCast]⟩
  cases oo with
  | false => simp [process_video, h1, h2]
  | true => simp [process_video, h1, h2]

/-- Witness for C2 (amended): on the 29.97 fps input the writer is opened
on "output.avi" with MJPG at 29 fps, 640x480. -/
theorem C2_witness :
    cexVideo.path_exists = true ∧ cexVideo.opens = true ∧
    (process_video "input_video.mp4" [(0 : ℚ)] ["A"] cexVideo true
        (cfConst []) (fdConst []) detNone drawId).head? =
      some (PEvent.openWriter "output.avi" "MJPG" 29 640 480) := by
  refine ⟨rfl, rfl, ?_⟩
  have h := (C2_truncated_writer "input_video.mp4" [(0 : ℚ)] ["A"]
    cexVideo true (cfConst []) (fdConst []) detNone drawId rfl rfl).1
  rw [h]
  decide

/-- Claim C7: when the writer fails to open after a successful input
open, the run reports the failure, releases the input capture as its very
last action, and neither writes a frame nor prints progress; the whole
trace is just these three events. -/
theorem C7_writer_fail {Enc Frame : Type} (vp : String) (encs : List Enc)
    (names : List String) (v : VideoIn Frame)
    (cf : List Enc → Enc → List Bool) (fd : List Enc → Enc → List ℚ)
    (det : Frame → List (Box × Enc))
    (dr : Frame → List (Box × String) → Frame)
    (h1 : v.path_exists = true) (h2 : v.opens = true) :
    process_video vp encs names v false cf fd det dr =
      [PEvent.openWriter "output.avi" "MJPG" (pyInt v.fps) (pyInt v.width)
          (pyInt v.height),
        PEvent.errWriterOpen "output.avi", PEvent.releaseCapture] ∧
    (process_video vp encs names v false cf fd det dr).countP
        isWriteFrame = 0 ∧
    (process_video vp encs names v false cf fd det dr).getLast? =
      some PEvent.releaseCapture ∧
    PEvent.errWriterOpen "output.avi" ∈
      process_video vp encs names v false cf fd det dr := by
  have htr : process_video vp encs names v false cf fd det dr =
      [PEvent.openWriter "output.avi" "MJPG" (pyInt v.fps) (pyInt v.width)
          (pyInt v.height),
        PEvent.errWriterOpen "output.avi", PEvent.releaseCapture] := by
    simp [process_video, h1, h2]
  refine ⟨htr, ?_, ?_, ?_⟩ <;> rw [htr]
  · simp [List.countP_cons, isWriteFrame]
  · rfl
  · simp

/-- Witness for C7: on the concrete 29.97 fps video with the writer
failing, the trace is exactly writer-open attempt, error report, capture
release. -/
theorem C7_witness :
    cexVideo.path_exists = true ∧ cexVideo.opens = true ∧
    process_video "input_video.mp4" [(0 : ℚ)] ["A"] cexVideo false
        (cfConst []) (fdConst []) detNone drawId =
      [PEvent.openWriter "output.avi" "MJPG" 29 640 480,
        PEvent.errWriterOpen "output.avi", PEvent.releaseCapture] := by
  refine ⟨rfl, rfl, ?_⟩
  have h := (C7_writer_fail "input_video.mp4" [(0 : ℚ)] ["A"] cexVideo
    (cfConst []) (fdConst []) detNone drawId rfl rfl).1
  rw [h]
  decide

/-- Claim C8: in a successful run, a progress message for count k is in
the trace exactly when k is a positive multiple of 30 no greater than the
number of frames; exactly one frame is written per frame read; and a
video whose frame count stays below every positive multiple of 30
produces no progress line. -/
theorem C8_progress_every_30 {Enc Frame : Type} (vp : String)
    (encs : List Enc) (names : List String) (v : VideoIn Frame)
    (cf : List Enc → Enc → List Bool) (fd : List Enc → Enc → List ℚ)
    (det : Frame → List (Box × Enc))
    (dr : Frame → List (Box × String) → Frame)
    (h1 : v.path_exists = true) (h2 : v.opens = true) :
    (∀ k, PEvent.progressMsg k ∈
        process_video vp encs names v true cf fd det dr ↔
      (1 ≤ k ∧ k ≤ v.frames.length ∧ k % 30 = 0)) ∧
    (process_video vp encs names v true cf fd det dr).countP
        isWriteFrame = v.frames.length ∧
    (v.frames.length < 30 → ∀ k, PEvent.progressMsg k ∉
        process_video vp encs names v true cf fd det dr) := by
  have htr : process_video vp encs names v true cf fd det dr =
      PEvent.openWriter "output.avi" "MJPG" (pyInt v.fps) (pyInt v.width)
          (pyInt v.height) ::
        PEvent.processingMsg vp ::
        (frameLoop cf fd det dr encs names v.frames 0 ++
          [PEvent.finishedMsg "output.avi", PEvent.releaseCapture,
            PEvent.releaseWriter, PEvent.destroyAllWindows]) := by
    simp [process_video, h1, h2]
  have hiff : ∀ k, PEvent.progressMsg k ∈
      process_video vp encs names v true cf fd det dr ↔
        (1 ≤ k ∧ k ≤ v.frames.length ∧ k % 30 = 0) := by
    intro k
    rw [htr]
    simp only [List.mem_cons, List.mem_append,
      frameLoop_progress_mem cf fd det dr encs names v.frames 0 k,
      List.not_mem_nil]
    constructor
    · intro h
      rcases h with h | h | h | h | h | h | h
      · exact absurd h (by simp)
      · exact absurd h (by simp)
      · omega
      · exact absurd h (by simp)
      · exact absurd h (by simp)
      · exact absurd h (by simp)
      · rcases h with h | h
        · exact absurd h (by simp)
        · exact h.elim
    · intro h
      exact Or.inr (Or.inr (Or.inl (by omega)))
  refine ⟨hiff, ?_, ?_⟩
  · rw [htr]
    simp [List.countP_cons, List.countP_append, isWriteFrame,
      frameLoop_writeCount cf fd det dr encs names v.frames 0]
  · intro hlen k hk
    have hh := (hiff k).mp hk
    omega

/-- Witness for C8: a 35-frame video emits the progress message for frame
30 and writes 35 frames. -/
theorem C8_witness :
    vid35.path_exists = true ∧ vid35.opens = true ∧
    PEvent.progressMsg 30 ∈
      process_video "input_video.mp4" [(0 : ℚ)] ["A"] vid35 true
        (cfConst []) (fdConst []) detNone drawId ∧
    (process_video "input_video.mp4" [(0 : ℚ)] ["A"] vid35 true
        (cfConst []) (fdConst []) detNone drawId).countP
      isWriteFrame = 35 := by
  have h := C8_progress_every_30 "input_video.mp4" [(0 : ℚ)] ["A"] vid35
    (cfConst []) (fdConst []) detNone drawId rfl rfl
  refine ⟨rfl, rfl, (h.1 30).mpr (by decide), ?_⟩
  have h2 := h.2.1
  simpa [vid35] using h2

end Face
